import Mathlib

/-!
Verification of the trap/gem puzzle solver (`src/22120344.py`).

The grid holds four kinds of cells: traps (`'T'`), gems (`'G'`), unknown
cells (`'_'`), and numeric clue cells.  We embed the grid as a list of
rows of `Cell`s and translate each Python function into a Lean function of
the same name.  Out-of-bounds reads (which would raise in Python) are
totalized with the default `Cell.unknown`.
-/

namespace TrapGem

/-- Cell states: `'T'`, `'G'`, `'_'`, or a digit cell holding clue `k`. -/
inductive Cell : Type
  | trap : Cell
  | gem : Cell
  | unknown : Cell
  | clue : Nat → Cell
  deriving DecidableEq, Repr

/-- A grid is a list of rows (Python: list of lists of one-token strings). -/
abbrev Grid := List (List Cell)

/-- Python `len(grid)`. -/
def rowsOf (g : Grid) : Nat := g.length

/-- Python `len(grid[0])` (0 for the empty grid, where Python would raise). -/
def colsOf (g : Grid) : Nat := (g.getD 0 []).length

/-- Read `grid[i][j]`, totalized with default `unknown` out of bounds. -/
def cellAt (g : Grid) (i j : Nat) : Cell := (g.getD i []).getD j Cell.unknown

/-- Python `cell.isdigit()`: is this a clue cell? -/
def isClue : Cell → Bool
  | Cell.clue _ => true
  | _ => false

/-- Write `grid[i][j] = c`, a no-op out of bounds (where Python would raise). -/
def setCell (g : Grid) (i j : Nat) (c : Cell) : Grid :=
  g.set i ((g.getD i []).set j c)

/-- Python `get_neighbors(i, j, rows, cols)`: the ≤ 8 Moore neighbours clipped to
the grid bounds, in the order produced by the Python double loop over
`di, dj ∈ {-1, 0, 1}` skipping `(0, 0)`. -/
def get_neighbors (i j rows cols : Nat) : List (Nat × Nat) :=
  [(-1, -1), (-1, 0), (-1, 1), (0, -1), (0, 1), (1, -1), (1, 0), (1, 1)].filterMap
    (fun (d : Int × Int) =>
      let ni : Int := (i : Int) + d.1
      let nj : Int := (j : Int) + d.2
      if 0 ≤ ni ∧ ni < (rows : Int) ∧ 0 ≤ nj ∧ nj < (cols : Int) then
        some (ni.toNat, nj.toNat)
      else none)

/-- Number of `'T'` neighbours of `(i, j)` (the Python local `trap_count`). -/
def trap_count (g : Grid) (i j : Nat) : Nat :=
  (get_neighbors i j (rowsOf g) (colsOf g)).countP
    fun q => decide (cellAt g q.1 q.2 = Cell.trap)

/-- Number of `'_'` neighbours of `(i, j)` (the Python local `unknown_count`). -/
def unknown_count (g : Grid) (i j : Nat) : Nat :=
  (get_neighbors i j (rowsOf g) (colsOf g)).countP
    fun q => decide (cellAt g q.1 q.2 = Cell.unknown)

/-- Python `check_grid_validity(grid)`: every clue `k` must satisfy
`trap_count ≤ k ≤ trap_count + unknown_count`. -/
def check_grid_validity (g : Grid) : Bool :=
  (List.range (rowsOf g)).all fun i =>
    (List.range (colsOf g)).all fun j =>
      match cellAt g i j with
      | Cell.clue k =>
          !(decide (trap_count g i j > k) ||
            decide (trap_count g i j + unknown_count g i j < k))
      | _ => true

/-- Python `is_valid_grid(grid, partial)`.  In full mode each clue's trap count
must equal `k` exactly; in the mode used for pruning it must still be
possible to reach exactly `k` traps.  (The Python code also computes an
unused `ground_count` of `'G'` neighbours, omitted here.) -/
def is_valid_grid (g : Grid) (isPartialCheck : Bool) : Bool :=
  (List.range (rowsOf g)).all fun i =>
    (List.range (colsOf g)).all fun j =>
      match cellAt g i j with
      | Cell.clue k =>
          if !isPartialCheck then decide (trap_count g i j = k)
          else !(decide (trap_count g i j > k)) &&
               !(decide (trap_count g i j + unknown_count g i j < k))
      | _ => true

/-- Row-major list of all `(i, j)` with `i < rows`, `j < cols` (the
iteration space of every Python double loop). -/
def allPositions (rows cols : Nat) : List (Nat × Nat) :=
  (List.range rows).product (List.range cols)

/-- Python `empty_cells`: the row-major list of `'_'` positions
(`[(i, j) for i in range(rows) for j in range(cols) if grid[i][j] == '_']`). -/
def empty_cells (g : Grid) : List (Nat × Nat) :=
  (allPositions (rowsOf g) (colsOf g)).filter
    fun p => decide (cellAt g p.1 p.2 = Cell.unknown)

/-- Python `try_combinations(index, temp_grid)` and `try_backtrack(index, temp_grid)`
(both are textually identical): depth-first assignment of the listed cells,
`'G'` first then `'T'`, pruned with the `is_valid_grid` check in its
pruning mode, accepted by the full check at the leaf; a failed cell is
reset to `'_'` before returning.  The Python recursion mutates one shared
grid, so we thread the grid state explicitly and return the pair
(result, final state of the mutated grid). -/
def try_combinations : List (Nat × Nat) → Grid → Option Grid × Grid
  | [], g => if is_valid_grid g false then (some g, g) else (none, g)
  | (i, j) :: rest, g =>
      let gG := setCell g i j Cell.gem
      let pG := if is_valid_grid gG true then try_combinations rest gG else (none, gG)
      match pG.1 with
      | some h => (some h, pG.2)
      | none =>
          let gT := setCell pG.2 i j Cell.trap
          let pT := if is_valid_grid gT true then try_combinations rest gT else (none, gT)
          match pT.1 with
          | some h => (some h, pT.2)
          | none => (none, setCell pT.2 i j Cell.unknown)

/-- Python `brute_force(grid, output_file)` minus the I/O and timing: reject the
grid if the pre-validity check fails, otherwise run the recursive search
over the row-major `'_'` cells on a defensive copy (`[row[:] for row in
grid]`, which as a value equals `grid`).  `None` stands for the Python
`return None, None`. -/
def brute_force (g : Grid) : Option Grid :=
  if check_grid_validity g = false then none
  else (try_combinations (empty_cells g) g).1

/-- Descending lexicographic order on `(priority, i, j)` triples, the order
produced by Python's `sorted(cells, reverse=True)`. -/
def tripleGE (a b : Nat × Nat × Nat) : Bool :=
  decide (b.1 < a.1) ||
    (decide (a.1 = b.1) &&
      (decide (b.2.1 < a.2.1) ||
        (decide (a.2.1 = b.2.1) && decide (b.2.2 ≤ a.2.2))))

/-- Python `get_priority_cells(grid)`: the `'_'` cells sorted by descending
number of digit neighbours (ties broken by descending position). -/
def get_priority_cells (g : Grid) : List (Nat × Nat) :=
  let cells := (empty_cells g).map fun p =>
    (((get_neighbors p.1 p.2 (rowsOf g) (colsOf g)).countP
        fun q => isClue (cellAt g q.1 q.2)),
      p.1, p.2)
  (cells.mergeSort tripleGE).map fun t => (t.2.1, t.2.2)

/-- Python `backtracking(grid, output_file)` minus the I/O and timing: identical
to `brute_force` except for the cell visiting order. -/
def backtracking (g : Grid) : Option Grid :=
  if check_grid_validity g = false then none
  else (try_combinations (get_priority_cells g) g).1

/-- The clauses `generate_cnf` emits for one clue over the (1-based,
positive) neighbour variable list `V` with adjusted target `a`: all gems
when `a = 0`, else positive clauses over every `(n - a + 1)`-subset and
negated clauses over every `(a + 1)`-subset. -/
def clue_clauses (V : List Nat) (a : Nat) : List (List Int) :=
  if a = 0 then V.map fun v => [-(Int.ofNat v)]
  else
    (if 0 < a then
      (List.sublistsLen (V.length - a + 1) V).map fun c => c.map fun v => Int.ofNat v
    else []) ++
    (if a < V.length then
      (List.sublistsLen (a + 1) V).map fun c => c.map fun v => -(Int.ofNat v)
    else [])

/-- The Python `var_map`: `'_'` cells receive dense 1-based ids in
row-major order; every other cell has no variable (`None` values for
`'T'`/`'G'` cells and missing keys for clue cells both yield `None`
under `var_map.get`). -/
def var_map (g : Grid) (p : Nat × Nat) : Option Nat :=
  ((empty_cells g).findIdx? fun q => decide (q = p)).map (· + 1)

/-- The Python local `neighbor_vars`: variables of the unknown neighbours. -/
def neighbor_vars (g : Grid) (i j : Nat) : List Nat :=
  (get_neighbors i j (rowsOf g) (colsOf g)).filterMap (var_map g)

/-- The clue loop of `generate_cnf`, over a list of candidate positions:
returns `none` (the Python `return None, None, 0`) as soon as some clue's
adjusted target is out of range, otherwise concatenates the clause
families of every clue. -/
def cnf_clauses (g : Grid) : List (Nat × Nat) → Option (List (List Int))
  | [] => some []
  | p :: rest =>
      match cellAt g p.1 p.2 with
      | Cell.clue k =>
          let V := neighbor_vars g p.1 p.2
          if (k : Int) - trap_count g p.1 p.2 < 0 ∨
             (k : Int) - trap_count g p.1 p.2 > V.length then none
          else
            match cnf_clauses g rest with
            | none => none
            | some cls =>
                some ((if V.isEmpty then [] else clue_clauses V (k - trap_count g p.1 p.2)) ++ cls)
      | _ => cnf_clauses g rest

/-- Python `generate_cnf(grid)` minus the variable map it also returns: `none` is
the distinguished unsatisfiable result; on success the deduplicated clause
set (the Python code inserts clauses into a `set`). -/
def generate_cnf (g : Grid) : Option (List (List Int)) :=
  (cnf_clauses g (allPositions (rowsOf g) (colsOf g))).map fun cls => cls.dedup

/-- Write a SAT model back into the grid: each `'_'` cell becomes `'T'`
when its variable is true, else `'G'`. -/
def apply_model (g : Grid) (f : Nat → Bool) : Grid :=
  (empty_cells g).foldl
    (fun g' p =>
      setCell g' p.1 p.2 (if f ((var_map g p).getD 0) then Cell.trap else Cell.gem))
    g

/-- Python `solve_with_pysat(grid, output_file)` minus the I/O and timing, with
the Glucose3 solver abstracted as an oracle from a clause list to an
optional model. -/
def solve_with_pysat (oracle : List (List Int) → Option (Nat → Bool)) (g : Grid) :
    Option Grid :=
  if check_grid_validity g = false then none
  else
    match generate_cnf g with
    | none => none
    | some cls =>
        match oracle cls with
        | none => none
        | some f => some (apply_model g f)

/-- Truth of a signed literal under an assignment (positive = trap). -/
def sat_lit (f : Nat → Bool) (l : Int) : Bool :=
  if 0 < l then f l.toNat else !(f (-l).toNat)

/-- A clause is satisfied when at least one literal holds. -/
def sat_clause (f : Nat → Bool) (c : List Int) : Bool := c.any (sat_lit f)

/-! ### Basic list lemmas -/

theorem getD_set_self {α : Type} (l : List α) (i : Nat) (a d : α) (h : i < l.length) :
    (l.set i a).getD i d = a := by
  induction l generalizing i with
  | nil => simp at h
  | cons x xs ih =>
      cases i with
      | zero => rfl
      | succ n => exact ih n (by simpa using h)

theorem getD_set_ne {α : Type} (l : List α) (i j : Nat) (a d : α) (h : i ≠ j) :
    (l.set i a).getD j d = l.getD j d := by
  induction l generalizing i j with
  | nil => simp
  | cons x xs ih =>
      cases i with
      | zero =>
          cases j with
          | zero => exact absurd rfl h
          | succ m => rfl
      | succ n =>
          cases j with
          | zero => rfl
          | succ m => exact ih n m (fun hc => h (by rw [hc]))

theorem set_getD {α : Type} (l : List α) (i : Nat) (d : α) (h : i < l.length) :
    l.set i (l.getD i d) = l := by
  induction l generalizing i with
  | nil => simp at h
  | cons x xs ih =>
      cases i with
      | zero => rfl
      | succ n => simpa using ih n (by simpa using h)

theorem getD_of_len_le {α : Type} (l : List α) (i : Nat) (d : α) (h : l.length ≤ i) :
    l.getD i d = d := by
  induction l generalizing i with
  | nil => rfl
  | cons x xs ih =>
      cases i with
      | zero => simp at h
      | succ n => exact ih n (by simpa using h)

theorem getD_eq_getElem {α : Type} (l : List α) (i : Nat) (d : α) (h : i < l.length) :
    l.getD i d = l[i] := by
  induction l generalizing i with
  | nil => simp at h
  | cons x xs ih =>
      cases i with
      | zero => rfl
      | succ n => simpa using ih n (by simpa using h)

theorem length_filterMap_eq_countP {α β : Type} (f : α → Option β) (l : List α) :
    (l.filterMap f).length = l.countP fun a => (f a).isSome := by
  induction l with
  | nil => rfl
  | cons x xs ih =>
      cases hx : f x with
      | none => simp [List.filterMap_cons, hx, List.countP_cons, ih]
      | some b => simp [List.filterMap_cons, hx, List.countP_cons, ih]

theorem countP_lt_of_mem {α : Type} {p q : α → Bool} {l : List α}
    (hle : ∀ x ∈ l, p x = true → q x = true) {a : α} (ha : a ∈ l)
    (hpa : p a = false) (hqa : q a = true) : l.countP p < l.countP q := by
  induction l with
  | nil => simp at ha
  | cons x xs ih =>
      rcases List.mem_cons.1 ha with rfl | ha'
      · have hxs : xs.countP p ≤ xs.countP q :=
          List.countP_mono_left fun y hy => hle y (List.mem_cons_of_mem _ hy)
        rw [List.countP_cons, List.countP_cons, hpa, hqa]
        simpa using Nat.lt_succ_of_le hxs
      · have hx : (if p x = true then 1 else 0) ≤ (if q x = true then 1 else 0) := by
          by_cases hp : p x = true
          · simp [hp, hle x (List.mem_cons_self x xs) hp]
          · simp [hp]
        have := ih (fun y hy hpy => hle y (List.mem_cons_of_mem _ hy) hpy) ha'
        simp only [List.countP_cons]
        omega

/-! ### `setCell` and `cellAt` lemmas -/

theorem setCell_length (g : Grid) (i j : Nat) (c : Cell) :
    (setCell g i j c).length = g.length := by
  simp [setCell]

theorem setCell_rowlen (g : Grid) (i j : Nat) (c : Cell) (i' : Nat) :
    ((setCell g i j c).getD i' []).length = (g.getD i' []).length := by
  by_cases hii : i = i'
  · subst hii
    by_cases hi : i < g.length
    · rw [setCell, getD_set_self _ _ _ _ hi, List.length_set]
    · rw [setCell, List.set_eq_of_length_le (Nat.le_of_not_lt hi)]
  · rw [setCell, getD_set_ne _ _ _ _ _ hii]

/-- Two grids with identical row structure. -/
def SameShape (g h : Grid) : Prop :=
  g.length = h.length ∧ ∀ i, (g.getD i []).length = (h.getD i []).length

theorem sameShape_refl (g : Grid) : SameShape g g := ⟨rfl, fun _ => rfl⟩

theorem SameShape.symm {g h : Grid} (hs : SameShape g h) : SameShape h g :=
  ⟨hs.1.symm, fun i => (hs.2 i).symm⟩

theorem sameShape_trans {g h k : Grid} (h₁ : SameShape g h) (h₂ : SameShape h k) :
    SameShape g k := ⟨h₁.1.trans h₂.1, fun i => (h₁.2 i).trans (h₂.2 i)⟩

theorem sameShape_setCell (g : Grid) (i j : Nat) (c : Cell) :
    SameShape g (setCell g i j c) :=
  ⟨(setCell_length g i j c).symm, fun i' => (setCell_rowlen g i j c i').symm⟩

theorem SameShape.rowsOf_eq {g h : Grid} (hs : SameShape g h) : rowsOf g = rowsOf h := hs.1

theorem SameShape.colsOf_eq {g h : Grid} (hs : SameShape g h) : colsOf g = colsOf h := hs.2 0

theorem cellAt_setCell_self {g : Grid} {i j : Nat} (c : Cell)
    (hi : i < g.length) (hj : j < (g.getD i []).length) :
    cellAt (setCell g i j c) i j = c := by
  rw [cellAt, setCell, getD_set_self _ _ _ _ hi, getD_set_self _ _ _ _ hj]

theorem cellAt_setCell_ne {g : Grid} {i j i' j' : Nat} (c : Cell)
    (h : i ≠ i' ∨ j ≠ j') :
    cellAt (setCell g i j c) i' j' = cellAt g i' j' := by
  rcases h with hii | hjj
  · rw [cellAt, cellAt, setCell, getD_set_ne _ _ _ _ _ hii]
  · by_cases hii : i = i'
    · subst hii
      by_cases hi : i < g.length
      · rw [cellAt, cellAt, setCell, getD_set_self _ _ _ _ hi, getD_set_ne _ _ _ _ _ hjj]
      · rw [cellAt, cellAt, setCell, List.set_eq_of_length_le (Nat.le_of_not_lt hi)]
    · rw [cellAt, cellAt, setCell, getD_set_ne _ _ _ _ _ hii]

theorem setCell_setCell (g : Grid) (i j : Nat) (c c' : Cell) :
    setCell (setCell g i j c) i j c' = setCell g i j c' := by
  by_cases hi : i < g.length
  · rw [setCell, setCell, setCell, getD_set_self _ _ _ _ hi, List.set_set, List.set_set]
  · have h1 : setCell g i j c = g := by
      rw [setCell, List.set_eq_of_length_le (Nat.le_of_not_lt hi)]
    rw [h1]

theorem setCell_cellAt (g : Grid) (i j : Nat) {c : Cell} (h : cellAt g i j = c) :
    setCell g i j c = g := by
  by_cases hi : i < g.length
  · by_cases hj : j < (g.getD i []).length
    · rw [setCell, ← h, cellAt, set_getD _ _ _ hj, set_getD _ _ _ hi]
    · rw [setCell, List.set_eq_of_length_le (Nat.le_of_not_lt hj), set_getD _ _ _ hi]
  · rw [setCell, List.set_eq_of_length_le (Nat.le_of_not_lt hi)]

theorem grid_ext {g h : Grid} (hs : SameShape g h)
    (hc : ∀ i j, cellAt g i j = cellAt h i j) : g = h := by
  refine List.ext_getElem hs.1 fun i hi₁ hi₂ => ?_
  refine List.ext_getElem ?_ fun j hj₁ hj₂ => ?_
  · have := hs.2 i
    rwa [getD_eq_getElem _ _ _ hi₁, getD_eq_getElem _ _ _ hi₂] at this
  · have := hc i j
    rw [cellAt, cellAt, getD_eq_getElem _ _ _ hi₁, getD_eq_getElem _ _ _ hi₂,
      getD_eq_getElem _ _ _ hj₁, getD_eq_getElem _ _ _ hj₂] at this
    exact this

/-! ### Extension of partial assignments -/

/-- Grid `h` refines `g` by (only) assigning some `'_'` cells to `'T'` or `'G'`:
every cell is unchanged, or was `'_'` and became `'T'`/`'G'`. -/
def Extends (g h : Grid) : Prop :=
  SameShape g h ∧
    ∀ i j, cellAt g i j = cellAt h i j ∨
      (cellAt g i j = Cell.unknown ∧
        (cellAt h i j = Cell.trap ∨ cellAt h i j = Cell.gem))

theorem extends_refl (g : Grid) : Extends g g :=
  ⟨sameShape_refl g, fun _ _ => Or.inl rfl⟩

theorem Extends.clue_iff {g h : Grid} (hx : Extends g h) (i j : Nat) (k : Nat) :
    cellAt g i j = Cell.clue k ↔ cellAt h i j = Cell.clue k := by
  rcases hx.2 i j with heq | ⟨hu, ht⟩
  · rw [heq]
  · constructor
    · intro hc; rw [hu] at hc; cases hc
    · intro hc
      rcases ht with ht | ht <;> rw [ht] at hc <;> cases hc

/-- Pointwise count comparison along any fixed list of positions: traps can
only appear, and each new trap consumes an unknown. -/
theorem ext_counts {g h : Grid}
    (hx : ∀ i j, cellAt g i j = cellAt h i j ∨
      (cellAt g i j = Cell.unknown ∧
        (cellAt h i j = Cell.trap ∨ cellAt h i j = Cell.gem)))
    (ps : List (Nat × Nat)) :
    (ps.countP fun q => decide (cellAt g q.1 q.2 = Cell.trap)) ≤
      (ps.countP fun q => decide (cellAt h q.1 q.2 = Cell.trap)) ∧
    (ps.countP fun q => decide (cellAt h q.1 q.2 = Cell.trap)) +
      (ps.countP fun q => decide (cellAt h q.1 q.2 = Cell.unknown)) ≤
    (ps.countP fun q => decide (cellAt g q.1 q.2 = Cell.trap)) +
      (ps.countP fun q => decide (cellAt g q.1 q.2 = Cell.unknown)) := by
  induction ps with
  | nil => simp
  | cons q ps ih =>
      simp only [List.countP_cons]
      obtain ⟨ih1, ih2⟩ := ih
      rcases hx q.1 q.2 with heq | ⟨hu, ht⟩
      · rw [heq]
        omega
      · rcases ht with ht | ht <;> rw [hu, ht] <;> simp <;> omega

theorem trap_count_eq_countP (g : Grid) (i j : Nat) :
    trap_count g i j = (get_neighbors i j (rowsOf g) (colsOf g)).countP
      fun q => decide (cellAt g q.1 q.2 = Cell.trap) := rfl

/-- Under `Extends`, the neighbourhood counts compare as needed for
monotonicity of the pruning check. -/
theorem Extends.count_bounds {g h : Grid} (hx : Extends g h) (i j : Nat) :
    trap_count g i j ≤ trap_count h i j ∧
      trap_count h i j + unknown_count h i j ≤ trap_count g i j + unknown_count g i j := by
  have hr : rowsOf g = rowsOf h := hx.1.rowsOf_eq
  have hc : colsOf g = colsOf h := hx.1.colsOf_eq
  have := ext_counts hx.2 (get_neighbors i j (rowsOf g) (colsOf g))
  constructor
  · have h1 := this.1
    rw [trap_count, trap_count, ← hr, ← hc]
    exact h1
  · have h2 := this.2
    rw [trap_count, trap_count, unknown_count, unknown_count, ← hr, ← hc]
    exact h2

/-! ### Characterizations of the validity predicates -/

theorem all_range_iff (n : Nat) (p : Nat → Bool) :
    (List.range n).all p = true ↔ ∀ i, i < n → p i = true := by
  simp [List.all_eq_true, List.mem_range]

theorem is_valid_full_iff (g : Grid) :
    is_valid_grid g false = true ↔
      ∀ i j k, i < rowsOf g → j < colsOf g → cellAt g i j = Cell.clue k →
        trap_count g i j = k := by
  rw [is_valid_grid]
  rw [all_range_iff]
  constructor
  · intro H i j k hi hj hk
    have := (all_range_iff _ _).1 (H i hi) j hj
    rw [hk] at this
    simpa using this
  · intro H i hi
    rw [all_range_iff]
    intro j hj
    cases hk : cellAt g i j with
    | clue k => simpa using H i j k hi hj hk
    | trap => simp
    | gem => simp
    | unknown => simp

theorem is_valid_part_iff (g : Grid) :
    is_valid_grid g true = true ↔
      ∀ i j k, i < rowsOf g → j < colsOf g → cellAt g i j = Cell.clue k →
        trap_count g i j ≤ k ∧ k ≤ trap_count g i j + unknown_count g i j := by
  rw [is_valid_grid]
  rw [all_range_iff]
  constructor
  · intro H i j k hi hj hk
    have := (all_range_iff _ _).1 (H i hi) j hj
    rw [hk] at this
    simp at this
    omega
  · intro H i hi
    rw [all_range_iff]
    intro j hj
    cases hk : cellAt g i j with
    | clue k =>
        have := H i j k hi hj hk
        simp
        omega
    | trap => simp
    | gem => simp
    | unknown => simp

theorem check_validity_iff (g : Grid) :
    check_grid_validity g = true ↔
      ∀ i j k, i < rowsOf g → j < colsOf g → cellAt g i j = Cell.clue k →
        trap_count g i j ≤ k ∧ k ≤ trap_count g i j + unknown_count g i j := by
  rw [check_grid_validity]
  rw [all_range_iff]
  constructor
  · intro H i j k hi hj hk
    have := (all_range_iff _ _).1 (H i hi) j hj
    rw [hk] at this
    simp at this
    omega
  · intro H i hi
    rw [all_range_iff]
    intro j hj
    cases hk : cellAt g i j with
    | clue k =>
        have := H i j k hi hj hk
        simp
        omega
    | trap => simp
    | gem => simp
    | unknown => simp

/-- Key pruning fact: a partial grid that extends to a fully-valid grid
passes the pruning-mode check. -/
theorem partial_of_full_ext {g h : Grid} (hx : Extends g h)
    (hfull : is_valid_grid h false = true) : is_valid_grid g true = true := by
  rw [is_valid_part_iff]
  intro i j k hi hj hk
  have hkh : cellAt h i j = Cell.clue k := (hx.clue_iff i j k).1 hk
  have hb := hx.count_bounds i j
  have hth : trap_count h i j = k :=
    (is_valid_full_iff h).1 hfull i j k (hx.1.rowsOf_eq ▸ hi) (hx.1.colsOf_eq ▸ hj) hkh
  omega

/-! ### C4: monotonicity of the pruning-mode check -/

/-- C4.  If the pruning-mode check `is_valid_grid(·, partial=True)` fails on
a grid, it also fails on every grid obtained from it by assigning some
Unknown cells to Trap or Gem (no cell un-assigned, nothing else changed). -/
theorem partial_check_monotone (g g' : Grid) (hx : Extends g g')
    (hbad : is_valid_grid g true = false) : is_valid_grid g' true = false := by
  by_contra hne
  have h' : is_valid_grid g' true = true := by
    cases hv : is_valid_grid g' true
    · exact absurd hv hne
    · rfl
  have hg : is_valid_grid g true = true := by
    rw [is_valid_part_iff]
    intro i j k hi hj hk
    have hk' := (hx.clue_iff i j k).1 hk
    have hp := (is_valid_part_iff g').1 h' i j k (hx.1.rowsOf_eq ▸ hi)
      (hx.1.colsOf_eq ▸ hj) hk'
    have hb := hx.count_bounds i j
    omega
  rw [hg] at hbad
  cases hbad

/-- Witness for C4 on a concrete 1×2 grid: `[Clue 2, '_']` already fails the
pruning check, and so does its extension `[Clue 2, 'T']`. -/
theorem partial_check_monotone_witness :
    is_valid_grid [[Cell.clue 2, Cell.trap]] true = false :=
  partial_check_monotone [[Cell.clue 2, Cell.unknown]] [[Cell.clue 2, Cell.trap]]
    ⟨⟨rfl, fun i => by cases i <;> rfl⟩, fun i j => by
      match i, j with
      | 0, 0 => exact Or.inl rfl
      | 0, 1 => exact Or.inr ⟨rfl, Or.inl rfl⟩
      | 0, n + 2 => exact Or.inl rfl
      | m + 1, j => exact Or.inl rfl⟩
    (by decide)

/-! ### C5: the pre-validity check is the pruning-mode check -/

/-- C5.  `check_grid_validity` computes exactly
`is_valid_grid(·, partial=True)` on every grid. -/
theorem check_grid_validity_eq_partial_check (g : Grid) :
    check_grid_validity g = is_valid_grid g true := by
  rw [Bool.eq_iff_iff, check_validity_iff, is_valid_part_iff]

/-! ### C10: the full-mode check only compares trap counts -/

/-- C10.  The full-mode check succeeds exactly when every clue cell's trap
neighbour count equals its value — Unknown or Gem neighbours are simply not
counted, so a grid still containing Unknown cells (e.g. a `Clue(0)`
surrounded entirely by Unknowns) passes the full check. -/
theorem full_check_counts_traps_only :
    (∀ g : Grid, is_valid_grid g false = true ↔
      ∀ i j k, i < rowsOf g → j < colsOf g → cellAt g i j = Cell.clue k →
        trap_count g i j = k) ∧
    is_valid_grid
      [[Cell.unknown, Cell.unknown, Cell.unknown],
       [Cell.unknown, Cell.clue 0, Cell.unknown],
       [Cell.unknown, Cell.unknown, Cell.unknown]] false = true :=
  ⟨fun g => is_valid_full_iff g, by decide⟩

/-! ### The recursive search: state restoration -/

theorem pos_ne {p : Nat × Nat} {i j : Nat} (h : p ≠ (i, j)) : i ≠ p.1 ∨ j ≠ p.2 := by
  obtain ⟨a, b⟩ := p
  rcases eq_or_ne i a with rfl | h1
  · right
    intro hj
    exact h (by rw [hj])
  · left
    exact h1

/-- After `setCell`, positions other than the written one still read as
they did before; in particular a list of distinct unknown cells stays
unknown at its other members. -/
theorem unknown_after_set {g : Grid} {i j : Nat} {rest : List (Nat × Nat)}
    (hu : ∀ p ∈ rest, cellAt g p.1 p.2 = Cell.unknown)
    (hni : (i, j) ∉ rest) (c : Cell) :
    ∀ p ∈ rest, cellAt (setCell g i j c) p.1 p.2 = Cell.unknown := by
  intro p hp
  have hne : p ≠ (i, j) := fun hpe => hni (hpe ▸ hp)
  rw [cellAt_setCell_ne c (pos_ne hne)]
  exact hu p hp

/-- The Python search restores the shared mutable grid: if the search
fails, the grid is back to its entry state; if it succeeds, the grid is
the returned solution. -/
theorem try_combinations_state :
    ∀ (cells : List (Nat × Nat)) (g : Grid),
      (∀ p ∈ cells, cellAt g p.1 p.2 = Cell.unknown) → cells.Nodup →
      (try_combinations cells g).2 =
        match (try_combinations cells g).1 with
        | some h => h
        | none => g := by
  intro cells
  induction cells with
  | nil =>
      intro g _ _
      by_cases hv : is_valid_grid g false = true <;> simp [try_combinations, hv]
  | cons q rest ih =>
      obtain ⟨i, j⟩ := q
      intro g hu hnd
      obtain ⟨hni, hndr⟩ := List.nodup_cons.1 hnd
      have hgij : cellAt g i j = Cell.unknown := hu (i, j) (List.mem_cons_self _ _)
      have huG := unknown_after_set (fun p hp => hu p (List.mem_cons_of_mem _ hp)) hni Cell.gem
      simp only [try_combinations]
      by_cases hvG : is_valid_grid (setCell g i j Cell.gem) true = true
      · rw [if_pos hvG]
        have hG := ih (setCell g i j Cell.gem) huG hndr
        cases hrG : (try_combinations rest (setCell g i j Cell.gem)).1 with
        | some h => simpa [hrG] using (by rw [hG, hrG] : _)
        | none =>
            have hsG : (try_combinations rest (setCell g i j Cell.gem)).2 =
                setCell g i j Cell.gem := by rw [hG, hrG]
            simp only [hrG, hsG, setCell_setCell]
            have huT := unknown_after_set
              (fun p hp => hu p (List.mem_cons_of_mem _ hp)) hni Cell.trap
            by_cases hvT : is_valid_grid (setCell g i j Cell.trap) true = true
            · rw [if_pos hvT]
              have hT := ih (setCell g i j Cell.trap) huT hndr
              cases hrT : (try_combinations rest (setCell g i j Cell.trap)).1 with
              | some h => simp only [hrT]; rw [hT, hrT]
              | none =>
                  have hsT : (try_combinations rest (setCell g i j Cell.trap)).2 =
                      setCell g i j Cell.trap := by rw [hT, hrT]
                  simp only [hrT, hsT, setCell_setCell]
                  exact setCell_cellAt g i j hgij
            · rw [if_neg hvT]
              simp only [setCell_setCell]
              exact setCell_cellAt g i j hgij
      · rw [if_neg hvG]
        simp only [setCell_setCell]
        have huT := unknown_after_set
          (fun p hp => hu p (List.mem_cons_of_mem _ hp)) hni Cell.trap
        by_cases hvT : is_valid_grid (setCell g i j Cell.trap) true = true
        · rw [if_pos hvT]
          have hT := ih (setCell g i j Cell.trap) huT hndr
          cases hrT : (try_combinations rest (setCell g i j Cell.trap)).1 with
          | some h => simp only [hrT]; rw [hT, hrT]
          | none =>
              have hsT : (try_combinations rest (setCell g i j Cell.trap)).2 =
                  setCell g i j Cell.trap := by rw [hT, hrT]
              simp only [hrT, hsT, setCell_setCell]
              exact setCell_cellAt g i j hgij
        · rw [if_neg hvT]
          simp only [setCell_setCell]
          exact setCell_cellAt g i j hgij

/-! ### The recursive search: soundness and completeness -/

/-- A well-formed work list for the search: distinct, in-bounds, currently
unknown cells. -/
def GoodCells (g : Grid) (cells : List (Nat × Nat)) : Prop :=
  cells.Nodup ∧ ∀ p ∈ cells, cellAt g p.1 p.2 = Cell.unknown ∧
    p.1 < g.length ∧ p.2 < (g.getD p.1 []).length

/-- Grid `h` is `g` with exactly the cells of `cells` assigned to `'T'`/`'G'`. -/
def AssignsOn (g h : Grid) (cells : List (Nat × Nat)) : Prop :=
  SameShape g h ∧
    (∀ p ∈ cells, cellAt h p.1 p.2 = Cell.trap ∨ cellAt h p.1 p.2 = Cell.gem) ∧
    (∀ p : Nat × Nat, p ∉ cells → cellAt h p.1 p.2 = cellAt g p.1 p.2)

theorem GoodCells.tail_set {g : Grid} {i j : Nat} {rest : List (Nat × Nat)}
    (hgc : GoodCells g ((i, j) :: rest)) (c : Cell) :
    GoodCells (setCell g i j c) rest := by
  obtain ⟨hnd, hmem⟩ := hgc
  obtain ⟨hni, hndr⟩ := List.nodup_cons.1 hnd
  refine ⟨hndr, fun p hp => ?_⟩
  obtain ⟨hu, hb1, hb2⟩ := hmem p (List.mem_cons_of_mem _ hp)
  have hne : p ≠ (i, j) := fun hpe => hni (hpe ▸ hp)
  exact ⟨by rw [cellAt_setCell_ne c (pos_ne hne)]; exact hu,
    by rw [setCell_length]; exact hb1,
    by rw [setCell_rowlen]; exact hb2⟩

theorem assignsOn_cons {g h : Grid} {i j : Nat} {rest : List (Nat × Nat)} {c : Cell}
    (hb1 : i < g.length) (hb2 : j < (g.getD i []).length)
    (hc : c = Cell.trap ∨ c = Cell.gem) (hni : (i, j) ∉ rest)
    (ha : AssignsOn (setCell g i j c) h rest) :
    AssignsOn g h ((i, j) :: rest) := by
  obtain ⟨hsh, hmem, hout⟩ := ha
  refine ⟨sameShape_trans (sameShape_setCell g i j c) hsh, ?_, ?_⟩
  · intro p hp
    rcases List.mem_cons.1 hp with h1 | hp'
    · rw [h1]
      have heq : cellAt h i j = cellAt (setCell g i j c) i j := hout (i, j) hni
      rw [heq, cellAt_setCell_self c hb1 hb2]
      rcases hc with rfl | rfl
      · exact Or.inl rfl
      · exact Or.inr rfl
    · exact hmem p hp'
  · intro p hp
    have hp1 : p ∉ rest := fun hr => hp (List.mem_cons_of_mem _ hr)
    have hp2 : p ≠ (i, j) := fun hpe => hp (hpe ▸ List.mem_cons_self _ _)
    rw [hout p hp1, cellAt_setCell_ne c (pos_ne hp2)]

/-- Splitting off the head of an `AssignsOn` whose head cell reads `c`. -/
theorem assignsOn_of_cons {g h : Grid} {i j : Nat} {rest : List (Nat × Nat)} {c : Cell}
    (hb1 : i < g.length) (hb2 : j < (g.getD i []).length)
    (hcell : cellAt h i j = c) (_hni : (i, j) ∉ rest)
    (ha : AssignsOn g h ((i, j) :: rest)) :
    AssignsOn (setCell g i j c) h rest := by
  obtain ⟨hsh, hmem, hout⟩ := ha
  refine ⟨sameShape_trans (sameShape_setCell g i j c).symm hsh, fun p hp =>
    hmem p (List.mem_cons_of_mem _ hp), ?_⟩
  intro p hp
  by_cases hpe : p = (i, j)
  · subst hpe
    rw [hcell, cellAt_setCell_self c hb1 hb2]
  · have hp2 : p ∉ (i, j) :: rest := by
      intro hmem'
      rcases List.mem_cons.1 hmem' with h1 | h1
      · exact hpe h1
      · exact hp h1
    rw [hout p hp2, cellAt_setCell_ne c (pos_ne hpe)]

theorem AssignsOn.extends {g h : Grid} {cells : List (Nat × Nat)}
    (hgc : GoodCells g cells) (ha : AssignsOn g h cells) : Extends g h := by
  obtain ⟨hsh, hmem, hout⟩ := ha
  refine ⟨hsh, fun i j => ?_⟩
  by_cases hp : (i, j) ∈ cells
  · exact Or.inr ⟨(hgc.2 _ hp).1, hmem _ hp⟩
  · exact Or.inl (hout (i, j) hp).symm

theorem try_combinations_sound :
    ∀ (cells : List (Nat × Nat)) (g : Grid), GoodCells g cells →
      ∀ h, (try_combinations cells g).1 = some h →
        AssignsOn g h cells ∧ is_valid_grid h false = true := by
  intro cells
  induction cells with
  | nil =>
      intro g _ h hres
      by_cases hv : is_valid_grid g false = true
      · simp only [try_combinations, if_pos hv] at hres
        obtain rfl : g = h := by injection hres
        exact ⟨⟨sameShape_refl g, fun p hp => absurd hp (List.not_mem_nil p),
          fun p _ => rfl⟩, hv⟩
      · simp only [try_combinations, if_neg hv] at hres
        cases hres
  | cons q rest ih =>
      obtain ⟨i, j⟩ := q
      intro g hgc h hres
      obtain ⟨hu, hb1, hb2⟩ := hgc.2 (i, j) (List.mem_cons_self _ _)
      have hni : (i, j) ∉ rest := (List.nodup_cons.1 hgc.1).1
      have hndr : rest.Nodup := (List.nodup_cons.1 hgc.1).2
      have hstate := try_combinations_state rest (setCell g i j Cell.gem)
        (fun p hp => ((hgc.tail_set Cell.gem).2 p hp).1) hndr
      simp only [try_combinations] at hres
      by_cases hvG : is_valid_grid (setCell g i j Cell.gem) true = true
      · rw [if_pos hvG] at hres
        cases hrG : (try_combinations rest (setCell g i j Cell.gem)).1 with
        | some h' =>
            rw [hrG] at hres
            injection hres with hh
            subst hh
            obtain ⟨ha, hval⟩ :=
              ih (setCell g i j Cell.gem) (hgc.tail_set Cell.gem) _ hrG
            exact ⟨assignsOn_cons hb1 hb2 (Or.inr rfl) hni ha, hval⟩
        | none =>
            rw [hrG] at hres
            have hsG : (try_combinations rest (setCell g i j Cell.gem)).2 =
                setCell g i j Cell.gem := by rw [hstate, hrG]
            rw [hsG, setCell_setCell] at hres
            by_cases hvT : is_valid_grid (setCell g i j Cell.trap) true = true
            · rw [if_pos hvT] at hres
              cases hrT : (try_combinations rest (setCell g i j Cell.trap)).1 with
              | some h' =>
                  rw [hrT] at hres
                  injection hres with hh
                  subst hh
                  obtain ⟨ha, hval⟩ :=
                    ih (setCell g i j Cell.trap) (hgc.tail_set Cell.trap) _ hrT
                  exact ⟨assignsOn_cons hb1 hb2 (Or.inl rfl) hni ha, hval⟩
              | none => rw [hrT] at hres; cases hres
            · rw [if_neg hvT] at hres
              cases hres
      · rw [if_neg hvG] at hres
        rw [setCell_setCell] at hres
        by_cases hvT : is_valid_grid (setCell g i j Cell.trap) true = true
        · rw [if_pos hvT] at hres
          cases hrT : (try_combinations rest (setCell g i j Cell.trap)).1 with
          | some h' =>
              rw [hrT] at hres
              injection hres with hh
              subst hh
              obtain ⟨ha, hval⟩ :=
                ih (setCell g i j Cell.trap) (hgc.tail_set Cell.trap) _ hrT
              exact ⟨assignsOn_cons hb1 hb2 (Or.inl rfl) hni ha, hval⟩
          | none => rw [hrT] at hres; cases hres
        · rw [if_neg hvT] at hres
          cases hres

theorem cellAt_ne_unknown_bounds {h : Grid} {i j : Nat}
    (hne : cellAt h i j ≠ Cell.unknown) :
    i < h.length ∧ j < (h.getD i []).length := by
  by_cases hi : i < h.length
  · refine ⟨hi, ?_⟩
    by_cases hj : j < (h.getD i []).length
    · exact hj
    · exact absurd (by rw [cellAt, getD_of_len_le _ _ _ (Nat.le_of_not_lt hj)]) hne
  · exact absurd (by rw [cellAt, getD_of_len_le _ _ _ (Nat.le_of_not_lt hi)]; rfl) hne

theorem try_combinations_complete :
    ∀ (cells : List (Nat × Nat)) (g : Grid), GoodCells g cells →
      ∀ h, AssignsOn g h cells → is_valid_grid h false = true →
        (try_combinations cells g).1 ≠ none := by
  intro cells
  induction cells with
  | nil =>
      intro g _ h ha hval
      obtain ⟨hsh, _, hout⟩ := ha
      have : g = h := grid_ext hsh fun i j => (hout (i, j) (List.not_mem_nil _)).symm
      subst this
      simp only [try_combinations, if_pos hval]
      intro hc
      cases hc
  | cons q rest ih =>
      obtain ⟨i, j⟩ := q
      intro g hgc h ha hval
      obtain ⟨hu, hb1, hb2⟩ := hgc.2 (i, j) (List.mem_cons_self _ _)
      have hni : (i, j) ∉ rest := (List.nodup_cons.1 hgc.1).1
      have hndr : rest.Nodup := (List.nodup_cons.1 hgc.1).2
      have hhead := ha.2.1 (i, j) (List.mem_cons_self _ _)
      have hstate := try_combinations_state rest (setCell g i j Cell.gem)
        (fun p hp => ((hgc.tail_set Cell.gem).2 p hp).1) hndr
      simp only [try_combinations]
      rcases hhead with hhead | hhead
      · -- the solution has a trap at the head cell
        have haT : AssignsOn (setCell g i j Cell.trap) h rest :=
          assignsOn_of_cons hb1 hb2 hhead hni ha
        have hvT : is_valid_grid (setCell g i j Cell.trap) true = true :=
          partial_of_full_ext (haT.extends (hgc.tail_set Cell.trap)) hval
        have hT : (try_combinations rest (setCell g i j Cell.trap)).1 ≠ none :=
          ih (setCell g i j Cell.trap) (hgc.tail_set Cell.trap) h haT hval
        by_cases hvG : is_valid_grid (setCell g i j Cell.gem) true = true
        · rw [if_pos hvG]
          cases hrG : (try_combinations rest (setCell g i j Cell.gem)).1 with
          | some h' => simp
          | none =>
              have hsG : (try_combinations rest (setCell g i j Cell.gem)).2 =
                  setCell g i j Cell.gem := by rw [hstate, hrG]
              simp only [hrG, hsG, setCell_setCell, if_pos hvT]
              cases hrT : (try_combinations rest (setCell g i j Cell.trap)).1 with
              | some h' => simp
              | none => exact absurd hrT hT
        · rw [if_neg hvG]
          simp only [setCell_setCell, if_pos hvT]
          cases hrT : (try_combinations rest (setCell g i j Cell.trap)).1 with
          | some h' => simp
          | none => exact absurd hrT hT
      · -- the solution has a gem at the head cell
        have haG : AssignsOn (setCell g i j Cell.gem) h rest :=
          assignsOn_of_cons hb1 hb2 hhead hni ha
        have hvG : is_valid_grid (setCell g i j Cell.gem) true = true :=
          partial_of_full_ext (haG.extends (hgc.tail_set Cell.gem)) hval
        have hG : (try_combinations rest (setCell g i j Cell.gem)).1 ≠ none :=
          ih (setCell g i j Cell.gem) (hgc.tail_set Cell.gem) h haG hval
        rw [if_pos hvG]
        cases hrG : (try_combinations rest (setCell g i j Cell.gem)).1 with
        | some h' => simp
        | none => exact absurd hrG hG

/-! ### The two strategies' work lists -/

theorem mem_empty_cells {g : Grid} {p : Nat × Nat} :
    p ∈ empty_cells g ↔
      p.1 < rowsOf g ∧ p.2 < colsOf g ∧ cellAt g p.1 p.2 = Cell.unknown := by
  obtain ⟨a, b⟩ := p
  simp [empty_cells, allPositions, List.mem_filter, List.pair_mem_product,
    List.mem_range, and_assoc]

theorem nodup_empty_cells (g : Grid) : (empty_cells g).Nodup :=
  List.Nodup.filter _ ((List.nodup_range _).product (List.nodup_range _))

theorem get_priority_cells_perm (g : Grid) :
    (get_priority_cells g).Perm (empty_cells g) := by
  have h2 := (List.mergeSort_perm
    ((empty_cells g).map fun p =>
      (((get_neighbors p.1 p.2 (rowsOf g) (colsOf g)).countP
          fun q => isClue (cellAt g q.1 q.2)), p.1, p.2)) tripleGE).map
    (fun t : Nat × Nat × Nat => (t.2.1, t.2.2))
  rw [List.map_map] at h2
  have hid : ((fun t : Nat × Nat × Nat => (t.2.1, t.2.2)) ∘
      (fun p : Nat × Nat =>
        (((get_neighbors p.1 p.2 (rowsOf g) (colsOf g)).countP
            fun q => isClue (cellAt g q.1 q.2)), p.1, p.2))) = id :=
    funext fun p => rfl
  rw [hid, List.map_id] at h2
  exact h2

/-! ### C2: correctness of the grid-based search strategies -/

/-- Rectangular grid: all rows have the `grid[0]` length.  (The spec's Grid
data model; Python raises on ragged input.) -/
def Rect (g : Grid) : Prop := ∀ i, i < g.length → (g.getD i []).length = colsOf g

/-- No cell of the grid is still `'_'`. -/
def FullyResolved (h : Grid) : Prop :=
  ∀ i j, i < h.length → j < (h.getD i []).length → cellAt h i j ≠ Cell.unknown

/-- Grid `h` is a solution for `g`: it assigns (only) `g`'s Unknown cells to
Trap/Gem, leaves nothing unresolved, and satisfies every clue exactly. -/
def Solves (g h : Grid) : Prop :=
  Extends g h ∧ FullyResolved h ∧ is_valid_grid h false = true

theorem goodCells_of_covers {g : Grid} {cells : List (Nat × Nat)} (hrect : Rect g)
    (hnd : cells.Nodup)
    (hcov : ∀ p : Nat × Nat, p ∈ cells ↔
      p.1 < rowsOf g ∧ p.2 < colsOf g ∧ cellAt g p.1 p.2 = Cell.unknown) :
    GoodCells g cells := by
  refine ⟨hnd, fun p hp => ?_⟩
  obtain ⟨h1, h2, h3⟩ := (hcov p).1 hp
  exact ⟨h3, h1, by rw [hrect p.1 h1]; exact h2⟩

/-- Master correctness statement for the recursive search run on any work
list that enumerates exactly the Unknown cells. -/
theorem search_cells_correct (g : Grid) (cells : List (Nat × Nat)) (hrect : Rect g)
    (hnd : cells.Nodup)
    (hcov : ∀ p : Nat × Nat, p ∈ cells ↔
      p.1 < rowsOf g ∧ p.2 < colsOf g ∧ cellAt g p.1 p.2 = Cell.unknown) :
    (∀ h, (try_combinations cells g).1 = some h → Solves g h) ∧
    ((try_combinations cells g).1.isSome ↔ ∃ h, Solves g h) := by
  have hgc : GoodCells g cells := goodCells_of_covers hrect hnd hcov
  have hsound : ∀ h, (try_combinations cells g).1 = some h → Solves g h := by
    intro h hres
    obtain ⟨ha, hval⟩ := try_combinations_sound cells g hgc h hres
    refine ⟨ha.extends hgc, ?_, hval⟩
    intro i j hi hj hun
    have hsh : SameShape g h := ha.1
    have hig : i < g.length := by rw [hsh.1]; exact hi
    have hjg : j < colsOf g := by
      have := hsh.2 i
      rw [← hrect i hig, this]
      exact hj
    by_cases hp : (i, j) ∈ cells
    · rcases ha.2.1 (i, j) hp with hc | hc <;> rw [hun] at hc <;> cases hc
    · have heq := ha.2.2 (i, j) hp
      rw [hun] at heq
      exact hp ((hcov (i, j)).2 ⟨hig, hjg, heq.symm⟩)
  refine ⟨hsound, ?_, ?_⟩
  · intro hs
    obtain ⟨h, hres⟩ := Option.isSome_iff_exists.1 hs
    exact ⟨h, hsound h hres⟩
  · rintro ⟨h, hx, hfr, hval⟩
    have hsh : SameShape g h := hx.1
    have ha : AssignsOn g h cells := by
      refine ⟨hsh, ?_, ?_⟩
      · intro p hp
        obtain ⟨h1, h2, h3⟩ := (hcov p).1 hp
        rcases hx.2 p.1 p.2 with heq | ⟨_, ht⟩
        · exfalso
          have hih : p.1 < h.length := by rw [← hsh.1]; exact h1
          have hjh : p.2 < (h.getD p.1 []).length := by
            rw [← hsh.2 p.1, hrect p.1 h1]
            exact h2
          exact hfr p.1 p.2 hih hjh (by rw [← heq]; exact h3)
        · exact ht
      · intro p hp
        rcases hx.2 p.1 p.2 with heq | ⟨hgu, ht⟩
        · exact heq.symm
        · exfalso
          have hne : cellAt h p.1 p.2 ≠ Cell.unknown := by
            rcases ht with ht | ht <;> rw [ht] <;> intro hc <;> cases hc
          obtain ⟨hih, hjh⟩ := cellAt_ne_unknown_bounds hne
          have h1 : p.1 < rowsOf g := by rw [rowsOf, hsh.1]; exact hih
          have h2 : p.2 < colsOf g := by
            rw [← hrect p.1 h1, hsh.2 p.1]
            exact hjh
          exact hp ((hcov p).2 ⟨h1, h2, hgu⟩)
    have := try_combinations_complete cells g hgc h ha hval
    exact Option.ne_none_iff_isSome.1 this

/-- C2.  On every rectangular grid passing the pre-validity check, both
`brute_force` and `backtracking` are sound (a returned grid is a fully
resolved extension satisfying every clue exactly) and complete (they
return a grid exactly when some assignment of the Unknown cells solves the
puzzle; otherwise they return `None`) — the partial-check pruning never
loses a solution. -/
theorem search_strategies_correct (g : Grid) (hrect : Rect g)
    (hv : check_grid_validity g = true) :
    ((∀ h, brute_force g = some h → Solves g h) ∧
      ((brute_force g).isSome ↔ ∃ h, Solves g h)) ∧
    ((∀ h, backtracking g = some h → Solves g h) ∧
      ((backtracking g).isSome ↔ ∃ h, Solves g h)) := by
  have hbf : brute_force g = (try_combinations (empty_cells g) g).1 := by
    rw [brute_force, hv]
    simp
  have hbt : backtracking g = (try_combinations (get_priority_cells g) g).1 := by
    rw [backtracking, hv]
    simp
  have hperm := get_priority_cells_perm g
  constructor
  · rw [hbf]
    exact search_cells_correct g (empty_cells g) hrect (nodup_empty_cells g)
      fun p => mem_empty_cells
  · rw [hbt]
    exact search_cells_correct g (get_priority_cells g) hrect
      (hperm.nodup_iff.2 (nodup_empty_cells g))
      fun p => (hperm.mem_iff).trans mem_empty_cells

/-- Witness for C2 on the 1×2 grid `[Clue 1, '_']`, which both strategies
solve by placing a trap. -/
theorem search_strategies_correct_witness :
    ((∀ h, brute_force [[Cell.clue 1, Cell.unknown]] = some h →
        Solves [[Cell.clue 1, Cell.unknown]] h) ∧
      ((brute_force [[Cell.clue 1, Cell.unknown]]).isSome ↔
        ∃ h, Solves [[Cell.clue 1, Cell.unknown]] h)) ∧
    ((∀ h, backtracking [[Cell.clue 1, Cell.unknown]] = some h →
        Solves [[Cell.clue 1, Cell.unknown]] h) ∧
      ((backtracking [[Cell.clue 1, Cell.unknown]]).isSome ↔
        ∃ h, Solves [[Cell.clue 1, Cell.unknown]] h)) :=
  search_strategies_correct [[Cell.clue 1, Cell.unknown]]
    (by
      intro i hi
      have h0 : i = 0 := by
        simp only [List.length_cons, List.length_nil] at hi
        omega
      subst h0
      rfl)
    (by decide)

/-! ### C6: malformed clues are rejected before any work -/

theorem countP_disjoint_le_length {α : Type} (p q : α → Bool) (l : List α)
    (h : ∀ a ∈ l, ¬(p a = true ∧ q a = true)) :
    l.countP p + l.countP q ≤ l.length := by
  induction l with
  | nil => simp
  | cons x xs ih =>
      have hx := h x (List.mem_cons_self x xs)
      have hxs := ih fun a ha => h a (List.mem_cons_of_mem _ ha)
      simp only [List.countP_cons, List.length_cons]
      by_cases hp : p x = true
      · have hq : ¬q x = true := fun hq => hx ⟨hp, hq⟩
        simp [hp, hq]
        omega
      · simp [hp]
        split <;> omega

/-- C6.  A clue whose value exceeds its neighbour count fails the
pre-validity check, and every strategy then returns the no-solution result
without any encoding or search (for `solve_with_pysat` this holds whatever
the SAT oracle would answer). -/
theorem malformed_clue_rejected (g : Grid) (i j k : Nat)
    (oracle : List (List Int) → Option (Nat → Bool))
    (hi : i < rowsOf g) (hj : j < colsOf g) (hc : cellAt g i j = Cell.clue k)
    (hk : (get_neighbors i j (rowsOf g) (colsOf g)).length < k) :
    check_grid_validity g = false ∧ brute_force g = none ∧
      backtracking g = none ∧ solve_with_pysat oracle g = none := by
  have hfalse : check_grid_validity g = false := by
    cases hcv : check_grid_validity g
    · rfl
    · exfalso
      have := (check_validity_iff g).1 hcv i j k hi hj hc
      have hle : trap_count g i j + unknown_count g i j ≤
          (get_neighbors i j (rowsOf g) (colsOf g)).length := by
        apply countP_disjoint_le_length
        intro a _ hpq
        obtain ⟨h1, h2⟩ := hpq
        simp only [decide_eq_true_eq] at h1 h2
        rw [h1] at h2
        cases h2
      omega
  refine ⟨hfalse, ?_, ?_, ?_⟩
  · rw [brute_force, hfalse]
    simp
  · rw [backtracking, hfalse]
    simp
  · rw [solve_with_pysat, hfalse]
    simp

/-- Witness for C6: the 1×1 grid `[Clue 9]` (a clue with no neighbours). -/
theorem malformed_clue_rejected_witness :
    check_grid_validity [[Cell.clue 9]] = false ∧
      brute_force [[Cell.clue 9]] = none ∧
      backtracking [[Cell.clue 9]] = none ∧
      solve_with_pysat (fun _ => none) [[Cell.clue 9]] = none :=
  malformed_clue_rejected [[Cell.clue 9]] 0 0 9 (fun _ => none)
    (by decide) (by decide) (by decide) (by decide)

/-! ### C7: `brute_force` has no feasibility threshold -/

/-- A 10×10 grid of 100 Unknown cells — far beyond "tens of variables". -/
def bigGrid : Grid := List.replicate 10 (List.replicate 10 Cell.unknown)

/-- The all-gem 10×10 grid. -/
def bigGemGrid : Grid := List.replicate 10 (List.replicate 10 Cell.gem)

set_option maxRecDepth 10000 in
/-- Counterexample to C7 as stated: with 100 Unknown-cell variables the
enumeration strategy does not refuse; it runs the search and returns the
all-gem grid. -/
theorem brute_force_no_threshold_cex :
    (empty_cells bigGrid).length = 100 ∧ brute_force bigGrid = some bigGemGrid := by
  decide

/-- C7 amended: `brute_force` applies no variable-count threshold — on
every rectangular grid passing the pre-validity check it runs the
exhaustive search to completion, returning a grid exactly when a solution
exists, no matter how many Unknown cells there are. -/
theorem brute_force_never_refuses (g : Grid) (hrect : Rect g)
    (hv : check_grid_validity g = true) :
    (brute_force g).isSome ↔ ∃ h, Solves g h := by
  have hbf : brute_force g = (try_combinations (empty_cells g) g).1 := by
    rw [brute_force, hv]
    simp
  rw [hbf]
  exact (search_cells_correct g (empty_cells g) hrect (nodup_empty_cells g)
    fun p => mem_empty_cells).2

/-- Witness for the amended C7 on the 1×1 grid `['_']`. -/
theorem brute_force_never_refuses_witness :
    (brute_force [[Cell.unknown]]).isSome ↔ ∃ h, Solves [[Cell.unknown]] h :=
  brute_force_never_refuses [[Cell.unknown]]
    (by
      intro i hi
      have h0 : i = 0 := by
        simp only [List.length_cons, List.length_nil] at hi
        omega
      subst h0
      rfl)
    (by decide)

/-! ### C9: the caller's grid survives every strategy call -/

/-- The grid `brute_force` writes out: the solution on success, the
original grid on failure (Python writes `result` or falls back to `grid`). -/
def brute_force_output (g : Grid) : Grid :=
  match brute_force g with
  | some h => h
  | none => g

/-- The grid `backtracking` writes out. -/
def backtracking_output (g : Grid) : Grid :=
  match backtracking g with
  | some h => h
  | none => g

/-- The grid `solve_with_pysat` writes out. -/
def pysat_output (oracle : List (List Int) → Option (Nat → Bool)) (g : Grid) : Grid :=
  match solve_with_pysat oracle g with
  | some h => h
  | none => g

/-- C9.  Each strategy call leaves the caller's grid intact: the recursive
searches restore their shared mutable grid to exactly the input grid
whenever they fail (and end in the returned solution on success), and on a
no-solution or invalid outcome every strategy reports back exactly the
original input grid. -/
theorem strategies_preserve_input (g : Grid)
    (oracle : List (List Int) → Option (Nat → Bool)) :
    ((try_combinations (empty_cells g) g).2 =
      match (try_combinations (empty_cells g) g).1 with
      | some h => h
      | none => g) ∧
    ((try_combinations (get_priority_cells g) g).2 =
      match (try_combinations (get_priority_cells g) g).1 with
      | some h => h
      | none => g) ∧
    (brute_force g = none → brute_force_output g = g) ∧
    (backtracking g = none → backtracking_output g = g) ∧
    (solve_with_pysat oracle g = none → pysat_output oracle g = g) := by
  refine ⟨?_, ?_, ?_, ?_, ?_⟩
  · exact try_combinations_state (empty_cells g) g
      (fun p hp => (mem_empty_cells.1 hp).2.2) (nodup_empty_cells g)
  · have hperm := get_priority_cells_perm g
    exact try_combinations_state (get_priority_cells g) g
      (fun p hp => (mem_empty_cells.1 (hperm.mem_iff.1 hp)).2.2)
      (hperm.nodup_iff.2 (nodup_empty_cells g))
  · intro hn
    rw [brute_force_output, hn]
  · intro hn
    rw [backtracking_output, hn]
  · intro hn
    rw [pysat_output, hn]

/-- Witness for C9 on the invalid grid `[Clue 9]`, where all three
strategies fail and report the untouched input back. -/
theorem strategies_preserve_input_witness :
    brute_force [[Cell.clue 9]] = none ∧
      brute_force_output [[Cell.clue 9]] = [[Cell.clue 9]] ∧
      backtracking_output [[Cell.clue 9]] = [[Cell.clue 9]] ∧
      pysat_output (fun _ => none) [[Cell.clue 9]] = [[Cell.clue 9]] :=
  ⟨by decide,
    (strategies_preserve_input [[Cell.clue 9]] (fun _ => none)).2.2.1 (by decide),
    (strategies_preserve_input [[Cell.clue 9]] (fun _ => none)).2.2.2.1 (by decide),
    (strategies_preserve_input [[Cell.clue 9]] (fun _ => none)).2.2.2.2 (by decide)⟩

/-! ### C1: the exact-k clause families -/

theorem countP_not_add (p : Nat → Bool) (l : List Nat) :
    l.countP p + l.countP (fun x => !(p x)) = l.length := by
  induction l with
  | nil => rfl
  | cons x xs ih =>
      simp only [List.countP_cons, List.length_cons]
      cases hp : p x <;> simp [hp] <;> omega

/-- All `m`-subsets of `V` contain a `p`-element exactly when fewer than
`m` elements of `V` falsify `p`. -/
theorem forall_sublistsLen_any (p : Nat → Bool) (V : List Nat) (m : Nat) :
    (∀ c ∈ List.sublistsLen m V, c.any p = true) ↔
      V.countP (fun x => !(p x)) < m := by
  constructor
  · intro H
    by_contra hge
    push_neg at hge
    have hflen : m ≤ (V.filter fun x => !(p x)).length := by
      rw [← List.countP_eq_length_filter]
      exact hge
    have hsub : ((V.filter fun x => !(p x)).take m).Sublist V :=
      (List.take_sublist _ _).trans (List.filter_sublist V)
    have hlen : ((V.filter fun x => !(p x)).take m).length = m := by
      rw [List.length_take]
      omega
    have hmem := H _ (List.mem_sublistsLen.2 ⟨hsub, hlen⟩)
    obtain ⟨x, hx, hpx⟩ := List.any_eq_true.1 hmem
    have hxf := List.mem_of_mem_take hx
    have := (List.mem_filter.1 hxf).2
    rw [hpx] at this
    cases this
  · intro hlt c hc
    by_contra hany
    have hall : ∀ x ∈ c, p x = false := by
      intro x hx
      cases hpx : p x
      · rfl
      · exact absurd (List.any_eq_true.2 ⟨x, hx, hpx⟩) hany
    obtain ⟨hsub, hlen⟩ := List.mem_sublistsLen.1 hc
    have hceq : c.filter (fun x => !(p x)) = c :=
      List.filter_eq_self.2 fun a ha => by rw [hall a ha]; rfl
    have hle : c.length ≤ (V.filter fun x => !(p x)).length := by
      conv_lhs => rw [← hceq]
      exact (hsub.filter _).length_le
    rw [hlen, ← List.countP_eq_length_filter] at hle
    omega

theorem sat_clause_map_pos (f : Nat → Bool) (c : List Nat)
    (hpos : ∀ v ∈ c, 0 < v) :
    sat_clause f (c.map fun v => Int.ofNat v) = c.any f := by
  induction c with
  | nil => rfl
  | cons v vs ih =>
      have hv := hpos v (List.mem_cons_self _ _)
      have hlit : sat_lit f (Int.ofNat v) = f v := by
        have hvz : (0 : Int) < Int.ofNat v := by
          simp only [Int.ofNat_eq_coe]
          omega
        rw [sat_lit, if_pos hvz]
        rfl
      rw [List.map_cons]
      show (sat_lit f (Int.ofNat v) || sat_clause f (vs.map fun w => Int.ofNat w)) =
        (v :: vs).any f
      rw [hlit, List.any_cons, ih fun w hw => hpos w (List.mem_cons_of_mem _ hw)]

theorem sat_clause_map_neg (f : Nat → Bool) (c : List Nat)
    (hpos : ∀ v ∈ c, 0 < v) :
    sat_clause f (c.map fun v => -(Int.ofNat v)) = c.any fun v => !(f v) := by
  induction c with
  | nil => rfl
  | cons v vs ih =>
      have hv := hpos v (List.mem_cons_self _ _)
      have hlit : sat_lit f (-(Int.ofNat v)) = !(f v) := by
        have hneg : ¬(0 < -(Int.ofNat v)) := by
          simp only [Int.ofNat_eq_coe]
          omega
        rw [sat_lit, if_neg hneg, neg_neg]
        rfl
      rw [List.map_cons]
      show (sat_lit f (-(Int.ofNat v)) ||
          sat_clause f (vs.map fun w => -(Int.ofNat w))) =
        (v :: vs).any fun w => !(f w)
      rw [hlit, List.any_cons, ih fun w hw => hpos w (List.mem_cons_of_mem _ hw)]

/-- C1.  For a clue with adjusted target `a` and neighbour-variable list
`V` (positive ids) with `0 < a < |V|`, an assignment satisfies every
clause `generate_cnf` emits for that clue (all `(n-a+1)`-subsets
positively, all `(a+1)`-subsets negated) iff exactly `a` of the `n`
variables are true. -/
theorem clue_clauses_exactly_k (V : List Nat) (a : Nat) (f : Nat → Bool)
    (hpos : ∀ v ∈ V, 0 < v) (h0 : 0 < a) (hn : a < V.length) :
    (∀ c ∈ clue_clauses V a, sat_clause f c = true) ↔ V.countP f = a := by
  have hsum := countP_not_add f V
  rw [clue_clauses, if_neg (Nat.pos_iff_ne_zero.1 h0), if_pos h0, if_pos hn]
  rw [List.forall_mem_append, List.forall_mem_map, List.forall_mem_map]
  have hposs : ∀ c ∈ List.sublistsLen (V.length - a + 1) V, sat_clause f
      (c.map fun v => Int.ofNat v) = c.any f := by
    intro c hc
    exact sat_clause_map_pos f c fun v hv =>
      hpos v ((List.mem_sublistsLen.1 hc).1.mem hv)
  have hnegs : ∀ c ∈ List.sublistsLen (a + 1) V, sat_clause f
      (c.map fun v => -(Int.ofNat v)) = (c.any fun v => !(f v)) := by
    intro c hc
    exact sat_clause_map_neg f c fun v hv =>
      hpos v ((List.mem_sublistsLen.1 hc).1.mem hv)
  have e1 : (∀ c ∈ List.sublistsLen (V.length - a + 1) V,
      sat_clause f (c.map fun v => Int.ofNat v) = true) ↔
      V.countP (fun x => !(f x)) < V.length - a + 1 := by
    rw [← forall_sublistsLen_any f V (V.length - a + 1)]
    constructor
    · intro H c hc
      rw [← hposs c hc]
      exact H c hc
    · intro H c hc
      rw [hposs c hc]
      exact H c hc
  have e2 : (∀ c ∈ List.sublistsLen (a + 1) V,
      sat_clause f (c.map fun v => -(Int.ofNat v)) = true) ↔
      V.countP f < a + 1 := by
    have := forall_sublistsLen_any (fun v => !(f v)) V (a + 1)
    simp only [Bool.not_not] at this
    rw [← this]
    constructor
    · intro H c hc
      rw [← hnegs c hc]
      exact H c hc
    · intro H c hc
      rw [hnegs c hc]
      exact H c hc
  rw [e1, e2]
  omega

/-- Witness for C1 with `V = [1, 2]`, `a = 1` and the assignment making
exactly variable 1 true. -/
theorem clue_clauses_exactly_k_witness :
    (∀ c ∈ clue_clauses [1, 2] 1,
      sat_clause (fun v => decide (v = 1)) c = true) ↔
      [1, 2].countP (fun v => decide (v = 1)) = 1 :=
  clue_clauses_exactly_k [1, 2] 1 (fun v => decide (v = 1))
    (by decide) (by decide) (by decide)

/-! ### C3: the distinguished unsatisfiable result of `generate_cnf` -/

theorem mem_allPositions {rows cols : Nat} {p : Nat × Nat} :
    p ∈ allPositions rows cols ↔ p.1 < rows ∧ p.2 < cols := by
  obtain ⟨a, b⟩ := p
  simp [allPositions, List.pair_mem_product, List.mem_range]

theorem get_neighbors_bounds {i j rows cols : Nat} {q : Nat × Nat}
    (hq : q ∈ get_neighbors i j rows cols) : q.1 < rows ∧ q.2 < cols := by
  rw [get_neighbors, List.mem_filterMap] at hq
  obtain ⟨d, _, hd⟩ := hq
  simp only at hd
  split at hd
  · injection hd with he
    subst he
    refine ⟨?_, ?_⟩ <;> simp only [] <;> omega
  · cases hd

theorem findIdx?_isSome {α : Type} (pred : α → Bool) :
    ∀ (l : List α) (i : Nat),
      (List.findIdx? pred l i).isSome = true ↔ ∃ x ∈ l, pred x = true := by
  intro l
  induction l with
  | nil => intro i; simp [List.findIdx?_nil]
  | cons x xs ih =>
      intro i
      rw [List.findIdx?_cons]
      by_cases hp : pred x = true
      · rw [if_pos hp]
        simp only [Option.isSome_some, true_iff]
        exact ⟨x, List.mem_cons_self _ _, hp⟩
      · rw [if_neg hp, ih (i + 1)]
        constructor
        · rintro ⟨y, hy, hpy⟩
          exact ⟨y, List.mem_cons_of_mem _ hy, hpy⟩
        · rintro ⟨y, hy, hpy⟩
          rcases List.mem_cons.1 hy with rfl | hy'
          · exact absurd hpy hp
          · exact ⟨y, hy', hpy⟩

theorem var_map_isSome {g : Grid} {p : Nat × Nat} :
    (var_map g p).isSome = true ↔ p ∈ empty_cells g := by
  rw [var_map, Option.isSome_map', findIdx?_isSome]
  constructor
  · rintro ⟨q, hq, hpq⟩
    rw [decide_eq_true_eq] at hpq
    exact hpq ▸ hq
  · intro hp
    exact ⟨p, hp, by simp⟩

/-- For any position, `neighbor_vars` has one entry per Unknown neighbour:
its length is exactly the Python `unknown_count`. -/
theorem length_neighbor_vars (g : Grid) (i j : Nat) :
    (neighbor_vars g i j).length = unknown_count g i j := by
  rw [neighbor_vars, unknown_count, length_filterMap_eq_countP]
  apply List.countP_congr
  intro q hq
  rw [var_map_isSome, mem_empty_cells]
  obtain ⟨h1, h2⟩ := get_neighbors_bounds hq
  simp [h1, h2]

/-- A clue cell whose adjusted target is out of range. -/
def BadClue (g : Grid) (p : Nat × Nat) : Prop :=
  ∃ k, cellAt g p.1 p.2 = Cell.clue k ∧
    ((k : Int) - trap_count g p.1 p.2 < 0 ∨
      (k : Int) - trap_count g p.1 p.2 > (neighbor_vars g p.1 p.2).length)

theorem cnf_clauses_none_iff (g : Grid) :
    ∀ ps : List (Nat × Nat),
      cnf_clauses g ps = none ↔ ∃ p ∈ ps, BadClue g p := by
  intro ps
  induction ps with
  | nil =>
      simp only [cnf_clauses]
      constructor
      · intro hc; cases hc
      · rintro ⟨p, hp, _⟩; cases hp
  | cons p rest ih =>
      cases hcell : cellAt g p.1 p.2 with
      | clue k =>
          by_cases hbad : (k : Int) - trap_count g p.1 p.2 < 0 ∨
              (k : Int) - trap_count g p.1 p.2 > (neighbor_vars g p.1 p.2).length
          · constructor
            · intro _
              exact ⟨p, List.mem_cons_self _ _, k, hcell, hbad⟩
            · intro _
              show (match cellAt g p.1 p.2 with
                | Cell.clue k => _
                | _ => _) = none
              rw [hcell]
              simp only [if_pos hbad]
          · constructor
            · intro hc
              have hc' : cnf_clauses g rest = none := by
                revert hc
                show (match cellAt g p.1 p.2 with
                  | Cell.clue k => _
                  | _ => _) = none → cnf_clauses g rest = none
                rw [hcell]
                simp only [if_neg hbad]
                cases hr : cnf_clauses g rest
                · intro _; rfl
                · intro hc; cases hc
              obtain ⟨q, hq, hbq⟩ := ih.1 hc'
              exact ⟨q, List.mem_cons_of_mem _ hq, hbq⟩
            · rintro ⟨q, hq, hbq⟩
              show (match cellAt g p.1 p.2 with
                | Cell.clue k => _
                | _ => _) = none
              rw [hcell]
              simp only [if_neg hbad]
              rcases List.mem_cons.1 hq with rfl | hq'
              · exfalso
                obtain ⟨k', hk', hcnd⟩ := hbq
                rw [hcell] at hk'
                injection hk' with hkk
                subst hkk
                exact hbad hcnd
              · have : cnf_clauses g rest = none := ih.2 ⟨q, hq', hbq⟩
                rw [this]
      | trap =>
          rw [show cnf_clauses g (p :: rest) = cnf_clauses g rest by
            show (match cellAt g p.1 p.2 with
              | Cell.clue k => _
              | _ => _) = cnf_clauses g rest
            rw [hcell]]
          rw [ih]
          constructor
          · rintro ⟨q, hq, hbq⟩
            exact ⟨q, List.mem_cons_of_mem _ hq, hbq⟩
          · rintro ⟨q, hq, hbq⟩
            rcases List.mem_cons.1 hq with rfl | hq'
            · obtain ⟨k', hk', _⟩ := hbq
              rw [hcell] at hk'
              cases hk'
            · exact ⟨q, hq', hbq⟩
      | gem =>
          rw [show cnf_clauses g (p :: rest) = cnf_clauses g rest by
            show (match cellAt g p.1 p.2 with
              | Cell.clue k => _
              | _ => _) = cnf_clauses g rest
            rw [hcell]]
          rw [ih]
          constructor
          · rintro ⟨q, hq, hbq⟩
            exact ⟨q, List.mem_cons_of_mem _ hq, hbq⟩
          · rintro ⟨q, hq, hbq⟩
            rcases List.mem_cons.1 hq with rfl | hq'
            · obtain ⟨k', hk', _⟩ := hbq
              rw [hcell] at hk'
              cases hk'
            · exact ⟨q, hq', hbq⟩
      | unknown =>
          rw [show cnf_clauses g (p :: rest) = cnf_clauses g rest by
            show (match cellAt g p.1 p.2 with
              | Cell.clue k => _
              | _ => _) = cnf_clauses g rest
            rw [hcell]]
          rw [ih]
          constructor
          · rintro ⟨q, hq, hbq⟩
            exact ⟨q, List.mem_cons_of_mem _ hq, hbq⟩
          · rintro ⟨q, hq, hbq⟩
            rcases List.mem_cons.1 hq with rfl | hq'
            · obtain ⟨k', hk', _⟩ := hbq
              rw [hcell] at hk'
              cases hk'
            · exact ⟨q, hq', hbq⟩

/-- C3.  `generate_cnf` returns the distinguished unsatisfiable result
(`None`, no clause set at all) exactly when some clue cell's adjusted
target `k - trap_count` is negative or exceeds its number of Unknown
neighbours. -/
theorem generate_cnf_none_iff (g : Grid) :
    generate_cnf g = none ↔
      ∃ i j k, i < rowsOf g ∧ j < colsOf g ∧ cellAt g i j = Cell.clue k ∧
        ((k : Int) - trap_count g i j < 0 ∨
          (k : Int) - trap_count g i j > unknown_count g i j) := by
  rw [generate_cnf, Option.map_eq_none', cnf_clauses_none_iff]
  constructor
  · rintro ⟨p, hp, k, hk, hcnd⟩
    obtain ⟨h1, h2⟩ := mem_allPositions.1 hp
    rw [length_neighbor_vars] at hcnd
    exact ⟨p.1, p.2, k, h1, h2, hk, hcnd⟩
  · rintro ⟨i, j, k, h1, h2, hk, hcnd⟩
    refine ⟨(i, j), mem_allPositions.2 ⟨h1, h2⟩, k, hk, ?_⟩
    rw [length_neighbor_vars]
    exact hcnd

/-! ### C8: the Constraint Propagator (spec §4.3) -/

/-- Assign `c` to every listed cell. -/
def setCells (g : Grid) (ps : List (Nat × Nat)) (c : Cell) : Grid :=
  ps.foldl (fun g' p => setCell g' p.1 p.2 c) g

/-- Modelled from the spec: `src/22120344.py` contains no Constraint
Propagator; §4.3 of the spec describes one.  For a clue cell with value
`k`, confirmed trap neighbours `t` and Unknown neighbour list `u`: if
`k - t = |u|` all of `u` become Trap; if `t = k` and `u` is non-empty all
of `u` become Gem; otherwise nothing changes. -/
def force_cells (g : Grid) (i j : Nat) : Grid :=
  match cellAt g i j with
  | Cell.clue k =>
      let nbrs := get_neighbors i j (rowsOf g) (colsOf g)
      let t := nbrs.countP fun q => decide (cellAt g q.1 q.2 = Cell.trap)
      let u := nbrs.filter fun q => decide (cellAt g q.1 q.2 = Cell.unknown)
      if (k : Int) - t = u.length then setCells g u Cell.trap
      else if t = k ∧ u ≠ [] then setCells g u Cell.gem
      else g
  | _ => g

/-- Modelled from the spec: one full sweep of the Constraint Propagator
over every cell of the grid, applying forced deductions as it goes. -/
def sweep (g : Grid) : Grid :=
  (allPositions (rowsOf g) (colsOf g)).foldl (fun g' p => force_cells g' p.1 p.2) g

/-- Total number of Unknown cells in the iterated region. -/
def unknownTotal (g : Grid) : Nat :=
  (allPositions (rowsOf g) (colsOf g)).countP
    fun p => decide (cellAt g p.1 p.2 = Cell.unknown)

/-- Modelled from the spec: repeat sweeps until a full sweep changes no
cell.  Each changing sweep assigns at least one Unknown cell, so
`unknownTotal g + 1` sweeps always reach the fixpoint. -/
def propagate_aux : Nat → Grid → Grid
  | 0, g => g
  | n + 1, g =>
      let g' := sweep g
      if g' = g then g else propagate_aux n g'

/-- Modelled from the spec: the Constraint Propagator, run to fixpoint. -/
def propagate (g : Grid) : Grid := propagate_aux (unknownTotal g + 1) g

/-- One propagation step: shape is preserved and every change turns an
in-region Unknown cell into a non-Unknown cell. -/
def StepRel (g g' : Grid) : Prop :=
  SameShape g g' ∧ ∀ i j, cellAt g' i j = cellAt g i j ∨
    (i < rowsOf g ∧ j < colsOf g ∧ cellAt g i j = Cell.unknown ∧
      cellAt g' i j ≠ Cell.unknown)

theorem stepRel_refl (g : Grid) : StepRel g g :=
  ⟨sameShape_refl g, fun _ _ => Or.inl rfl⟩

theorem stepRel_trans {g g' g'' : Grid} (h1 : StepRel g g') (h2 : StepRel g' g'') :
    StepRel g g'' := by
  refine ⟨sameShape_trans h1.1 h2.1, fun i j => ?_⟩
  rcases h2.2 i j with heq2 | ⟨hb1', hb2', hu', hne''⟩
  · rcases h1.2 i j with heq1 | ⟨hb1, hb2, hu, hne'⟩
    · exact Or.inl (heq2.trans heq1)
    · exact Or.inr ⟨hb1, hb2, hu, by rw [heq2]; exact hne'⟩
  · rcases h1.2 i j with heq1 | ⟨_, _, _, hne'⟩
    · refine Or.inr ⟨?_, ?_, ?_, hne''⟩
      · rw [← h1.1.rowsOf_eq] at hb1'
        exact hb1'
      · rw [← h1.1.colsOf_eq] at hb2'
        exact hb2'
      · rw [← heq1]
        exact hu'
    · exact absurd hu' hne'

theorem setCell_of_rowlen_le {g : Grid} {i j : Nat} (c : Cell)
    (hj : (g.getD i []).length ≤ j) : setCell g i j c = g := by
  by_cases hi : i < g.length
  · rw [setCell, List.set_eq_of_length_le hj, set_getD _ _ _ hi]
  · rw [setCell, List.set_eq_of_length_le (Nat.le_of_not_lt hi)]

theorem stepRel_setCell {g : Grid} {i j : Nat} {c : Cell} (hb1 : i < rowsOf g)
    (hb2 : j < colsOf g) (hu : cellAt g i j = Cell.unknown)
    (hc : c ≠ Cell.unknown) : StepRel g (setCell g i j c) := by
  refine ⟨sameShape_setCell g i j c, fun i' j' => ?_⟩
  by_cases hij : i = i' ∧ j = j'
  · obtain ⟨rfl, rfl⟩ := hij
    by_cases hrow : j < (g.getD i []).length
    · refine Or.inr ⟨hb1, hb2, hu, ?_⟩
      rw [cellAt_setCell_self c hb1 hrow]
      exact hc
    · rw [setCell_of_rowlen_le c (Nat.le_of_not_lt hrow)]
      exact Or.inl rfl
  · rw [cellAt_setCell_ne c (by tauto)]
    exact Or.inl rfl

theorem stepRel_setCells {c : Cell} (hc : c ≠ Cell.unknown) :
    ∀ (ps : List (Nat × Nat)) (g : Grid), ps.Nodup →
      (∀ p ∈ ps, p.1 < rowsOf g ∧ p.2 < colsOf g ∧
        cellAt g p.1 p.2 = Cell.unknown) →
      StepRel g (setCells g ps c) := by
  intro ps
  induction ps with
  | nil => exact fun g _ _ => stepRel_refl g
  | cons p rest ih =>
      intro g hnd hmem
      obtain ⟨h1, h2, h3⟩ := hmem p (List.mem_cons_self _ _)
      obtain ⟨hni, hndr⟩ := List.nodup_cons.1 hnd
      have hstep := stepRel_setCell h1 h2 h3 hc
      have hshape := sameShape_setCell g p.1 p.2 c
      have hrest : ∀ q ∈ rest, q.1 < rowsOf (setCell g p.1 p.2 c) ∧
          q.2 < colsOf (setCell g p.1 p.2 c) ∧
          cellAt (setCell g p.1 p.2 c) q.1 q.2 = Cell.unknown := by
        intro q hq
        obtain ⟨hq1, hq2, hq3⟩ := hmem q (List.mem_cons_of_mem _ hq)
        have hne : q ≠ p := fun hqe => hni (hqe ▸ hq)
        refine ⟨?_, ?_, ?_⟩
        · rw [← hshape.rowsOf_eq]
          exact hq1
        · rw [← hshape.colsOf_eq]
          exact hq2
        · rw [cellAt_setCell_ne c (pos_ne (by
            intro hqe
            exact hne (by rw [hqe])))]
          exact hq3
      have hrec := ih (setCell g p.1 p.2 c) hndr hrest
      exact stepRel_trans hstep (by
        show StepRel (setCell g p.1 p.2 c) (setCells g (p :: rest) c)
        exact hrec)

theorem get_neighbors_nodup (i j rows cols : Nat) :
    (get_neighbors i j rows cols).Nodup := by
  apply List.Nodup.filterMap
  · intro a b q hqa hqb
    simp only [Option.mem_def] at hqa hqb
    obtain ⟨a1, a2⟩ := a
    obtain ⟨b1, b2⟩ := b
    simp only at hqa hqb
    split at hqa
    · injection hqa with h1
      split at hqb
      · injection hqb with h2
        rw [← h2] at h1
        have e1 := congrArg Prod.fst h1
        have e2 := congrArg Prod.snd h1
        simp only at e1 e2
        have heq : a1 = b1 ∧ a2 = b2 := by
          constructor <;> omega
        rw [heq.1, heq.2]
      · cases hqb
    · cases hqa
  · decide

theorem stepRel_force_cells (g : Grid) (i j : Nat) :
    StepRel g (force_cells g i j) := by
  cases hcell : cellAt g i j with
  | clue k =>
      simp only [force_cells, hcell]
      have hmem : ∀ q ∈ (get_neighbors i j (rowsOf g) (colsOf g)).filter
          (fun q => decide (cellAt g q.1 q.2 = Cell.unknown)),
          q.1 < rowsOf g ∧ q.2 < colsOf g ∧ cellAt g q.1 q.2 = Cell.unknown := by
        intro q hq
        obtain ⟨hqn, hqu⟩ := List.mem_filter.1 hq
        obtain ⟨h1, h2⟩ := get_neighbors_bounds hqn
        rw [decide_eq_true_eq] at hqu
        exact ⟨h1, h2, hqu⟩
      have hnd := List.Nodup.filter
        (fun q => decide (cellAt g q.1 q.2 = Cell.unknown))
        (get_neighbors_nodup i j (rowsOf g) (colsOf g))
      split_ifs with hcnd1 hcnd2
      · exact stepRel_setCells (by decide) _ g hnd hmem
      · exact stepRel_setCells (by decide) _ g hnd hmem
      · exact stepRel_refl g
  | trap => simp only [force_cells, hcell]; exact stepRel_refl g
  | gem => simp only [force_cells, hcell]; exact stepRel_refl g
  | unknown => simp only [force_cells, hcell]; exact stepRel_refl g

theorem stepRel_sweep (g : Grid) : StepRel g (sweep g) := by
  rw [sweep]
  generalize allPositions (rowsOf g) (colsOf g) = l
  induction l generalizing g with
  | nil => exact stepRel_refl g
  | cons p rest ih =>
      exact stepRel_trans (stepRel_force_cells g p.1 p.2) (ih (force_cells g p.1 p.2))

theorem exists_diff {g g' : Grid} (hs : SameShape g g') (hne : g' ≠ g) :
    ∃ i j, cellAt g' i j ≠ cellAt g i j := by
  by_contra hc
  push_neg at hc
  exact hne (grid_ext hs.symm fun i j => hc i j)

theorem unknownTotal_lt_of_step {g g' : Grid} (hst : StepRel g g') (hne : g' ≠ g) :
    unknownTotal g' < unknownTotal g := by
  obtain ⟨i, j, hdiff⟩ := exists_diff hst.1 hne
  rcases hst.2 i j with heq | ⟨hb1, hb2, hu, hne'⟩
  · exact absurd heq hdiff
  · have hr : rowsOf g' = rowsOf g := hst.1.rowsOf_eq.symm
    have hcq : colsOf g' = colsOf g := hst.1.colsOf_eq.symm
    rw [unknownTotal, unknownTotal, hr, hcq]
    apply countP_lt_of_mem (a := (i, j))
    · intro p _ hp
      rw [decide_eq_true_eq] at hp
      rw [decide_eq_true_eq]
      rcases hst.2 p.1 p.2 with heqp | ⟨_, _, hup, hnep⟩
      · rw [← heqp]
        exact hp
      · exact absurd hp hnep
    · exact mem_allPositions.2 ⟨hb1, hb2⟩
    · exact decide_eq_false hne'
    · rw [decide_eq_true_eq]
      exact hu

theorem sweep_propagate_aux :
    ∀ (n : Nat) (g : Grid), unknownTotal g < n →
      sweep (propagate_aux n g) = propagate_aux n g := by
  intro n
  induction n with
  | zero => exact fun g h => absurd h (Nat.not_lt_zero _)
  | succ n ih =>
      intro g h
      by_cases heq : sweep g = g
      · have hpa : propagate_aux (n + 1) g = g := by
          rw [propagate_aux]
          simp only [heq, if_pos]
        rw [hpa]
        exact heq
      · have hpa : propagate_aux (n + 1) g = propagate_aux n (sweep g) := by
          rw [propagate_aux]
          simp only [if_neg heq]
        have hlt := unknownTotal_lt_of_step (stepRel_sweep g) heq
        rw [hpa]
        exact ih (sweep g) (by omega)

/-- C8.  The Constraint Propagator (modelled from spec §4.3, as it is
absent from `src/22120344.py`) is idempotent: running it a second time
changes nothing. -/
theorem propagate_idempotent (g : Grid) : propagate (propagate g) = propagate g := by
  have hfix : sweep (propagate g) = propagate g :=
    sweep_propagate_aux (unknownTotal g + 1) g (Nat.lt_succ_self _)
  rw [propagate, propagate_aux]
  simp only [hfix, if_pos]

end TrapGem

